import Mathlib

/-!
Shallow embedding of the `tod-ui` task-list client (Rust sources
`src/sync.rs` and `src/main.rs`) and verification of its specification.

Modelling conventions:
* Rust `String` is Lean `String`; `Uuid` values are modelled by their
  canonical string form (the code only ever compares them, or compares
  `uuid.to_string()` with a `String`, so this is faithful; `to_string`
  becomes the identity).
* `HashMap<K, V>` is modelled as an association list `List (K × V)` whose
  order is the (arbitrary) iteration order of the map; `get` is
  `List.lookup`.
* `Vec<T>` is `List T`; in-place mutation becomes explicit state passing.
* Fallible Rust code (`Result`) is `Except String`; code that can also
  abort the process (`unwrap`, integer underflow) returns `CliOutcome`,
  whose `panic` constructor marks abnormal termination.
-/

/-- `Item` from `src/sync.rs` lines 157-163. -/
structure Item where
  id : String
  project_id : String
  content : String
  checked : Bool
deriving DecidableEq, Repr

/-- `Item::mark_complete` from `src/sync.rs` lines 165-168. -/
def Item.mark_complete (i : Item) : Item :=
  { i with checked := true }

/-- `User` from `src/sync.rs` lines 106-110. -/
structure User where
  full_name : String
  inbox_project_id : String
deriving DecidableEq, Repr

/-- `AddItemCommandArgs` from `src/sync.rs` lines 144-148. -/
structure AddItemCommandArgs where
  project_id : String
  content : String
deriving DecidableEq, Repr

/-- `CompleteItemCommandArgs` from `src/sync.rs` lines 150-155. -/
structure CompleteItemCommandArgs where
  id : String
deriving DecidableEq, Repr

/-- `CommandArgs` from `src/sync.rs` lines 137-142. -/
inductive CommandArgs where
  | AddItemCommandArgs : AddItemCommandArgs → CommandArgs
  | CompleteItemCommandArgs : CompleteItemCommandArgs → CommandArgs
deriving DecidableEq, Repr

/-- `Command` from `src/sync.rs` lines 128-135 (`uuid` and `temp_id` are
modelled by their string forms). -/
structure Command where
  request_type : String
  uuid : String
  temp_id : Option String
  args : CommandArgs
deriving DecidableEq, Repr

/-- `Response` from `src/sync.rs` lines 89-104.  `sync_status` is
`Option (List (String × String))`, `temp_id_mapping` a `List (String × String)`
in iteration order. -/
structure Response where
  sync_token : String
  items : List Item
  user : Option User
  full_sync : Bool
  sync_status : Option (List (String × String))
  temp_id_mapping : List (String × String)
deriving DecidableEq, Repr

/-- `Model` from `src/sync.rs` lines 8-14. -/
structure Model where
  sync_token : String
  items : List Item
  user : User
  commands : List Command
deriving DecidableEq, Repr

/-- One iteration of the temp-id remapping loop in `Model::update`
(`src/sync.rs` lines 55-64): `items.iter_mut().find(|item| item.id == temp_id.to_string())`
followed by `matching_item.id = real_id.clone()` — only the first item whose
`id` equals `t` has its `id` overwritten with `r`. -/
def renameOne (t r : String) : List Item → List Item
  | [] => []
  | i :: rest =>
    if i.id = t then { i with id := r } :: rest
    else i :: renameOne t r rest

/-- The whole `temp_id_mapping.iter().for_each(...)` loop of `Model::update`
(`src/sync.rs` lines 50-65), folding `renameOne` over the mapping in
iteration order. -/
def applyMapping (mp : List (String × String)) (items : List Item) : List Item :=
  mp.foldl (fun acc p => renameOne p.1 p.2 acc) items

/-- `Model::update` from `src/sync.rs` lines 40-75.  The Rust function
mutates `self` field by field, in order: `sync_token`, `user` (when the
response carries one), `items` (wholesale replacement on a full sync,
temp-id remapping otherwise), and finally `commands` (retained unless the
`sync_status` map holds `"ok"` for the command's uuid).  The four updates
touch disjoint fields, so sequential mutation is one record construction. -/
def Model.update (m : Model) (r : Response) : Model :=
  { sync_token := r.sync_token
    user := match r.user with
      | some u => u
      | none => m.user
    items := if r.full_sync then r.items
      else applyMapping r.temp_id_mapping m.items
    commands := match r.sync_status with
      | some sm => m.commands.filter (fun c => !(List.lookup c.uuid sm == some "ok"))
      | none => m.commands }

/-- `Model::complete_item`'s search-and-mutate on the item list
(`src/sync.rs` lines 21-27): `iter_mut().find(|item| item.id == item_id)`,
then `mark_complete` on the found item; `none` when no item matches. -/
def completeInList (item_id : String) : List Item → Option (List Item × Item)
  | [] => none
  | i :: rest =>
    if i.id = item_id then
      some (i.mark_complete :: rest, i.mark_complete)
    else
      (completeInList item_id rest).map (fun p => (i :: p.1, p.2))

/-- `Model::complete_item` from `src/sync.rs` lines 20-28.  Returns the
updated model together with (a copy of) the completed item, or the
`anyhow!` error when no item has the given id — in which case the Rust
function has not mutated `self` at all. -/
def Model.complete_item (m : Model) (item_id : String) :
    Except String (Model × Item) :=
  match completeInList item_id m.items with
  | some (items', it) => .ok ({ m with items := items' }, it)
  | none => .error "Could not find item to complete"

/-- `Model::get_inbox_items` from `src/sync.rs` lines 31-38. -/
def Model.get_inbox_items (m : Model) : List Item :=
  m.items.filter (fun i => i.project_id == m.user.inbox_project_id && !i.checked)

/-- Outcome of a CLI operation in `src/main.rs`: a normal return, a
recoverable `Err` propagated with `?`/`bail!`, or an abnormal process
abort (`unwrap` on `None`, `usize` underflow). -/
inductive CliOutcome (α : Type) where
  | ok : α → CliOutcome α
  | err : String → CliOutcome α
  | panic : CliOutcome α
deriving DecidableEq, Repr

namespace Cli

/-- `get_inbox_items` from `src/main.rs` lines 262-276 (the local store
reuses the `Response` shape; file I/O elided, the parsed store is the
argument). -/
def get_inbox_items (data : Response) : Except String (List Item) :=
  match data.user with
  | some u =>
      .ok (data.items.filter (fun i => i.project_id == u.inbox_project_id && !i.checked))
  | none => .error "Could not find inbox project id in stored data."

/-- `add_item` from `src/main.rs` lines 159-211.  File I/O is elided: the
parsed `sync.json` store and `commands.json` list are arguments and the
updated pair is returned.  The freshly generated `Uuid`s (`item_id` for the
new item / `temp_id`, and the command's `uuid`) are parameters. -/
def add_item (data : Response) (commands : List Command) (item : String)
    (item_id cmd_uuid : String) : Except String (Response × List Command) :=
  match data.user with
  | none => .error "Could not find inbox project id in stored data."
  | some u =>
      let new_item : Item :=
        { id := item_id
          project_id := u.inbox_project_id
          content := item
          checked := false }
      let data' := { data with items := data.items ++ [new_item] }
      let cmd : Command :=
        { request_type := "item_add"
          uuid := cmd_uuid
          temp_id := some item_id
          args := .AddItemCommandArgs ⟨u.inbox_project_id, item⟩ }
      .ok (data', commands ++ [cmd])

/-- First-match update of `checked` in the stored item list, for
`src/main.rs` lines 228-233: `data.items.iter_mut().find(|item| item.id == target_item.id).unwrap()`
then `storage_item.checked = true`; `none` when the find fails (which makes
the Rust code panic on `unwrap`). -/
def setCheckedFirst (iid : String) : List Item → Option (List Item)
  | [] => none
  | i :: rest =>
    if i.id = iid then some ({ i with checked := true } :: rest)
    else (setCheckedFirst iid rest).map (i :: ·)

/-- `complete_item` from `src/main.rs` lines 213-260.  `number` is the
1-based display index typed by the user.  The Rust code computes
`get_inbox_items(...)?.get(number - 1).unwrap()`: with `number = 0` the
`usize` subtraction underflows (a panic in debug builds; in release it
wraps to `usize::MAX`, `get` yields `None` and `unwrap` panics), and with
`number` past the end of the inbox view `get` yields `None` and `unwrap`
panics — both are `CliOutcome.panic` here.  On success it returns the
updated store, the updated command list, and the targeted (pre-mutation)
item that the caller prints. -/
def complete_item (data : Response) (commands : List Command) (number : Nat)
    (cmd_uuid : String) : CliOutcome (Response × List Command × Item) :=
  match get_inbox_items data with
  | .error e => .err e
  | .ok inbox =>
    match number with
    | 0 => .panic
    | Nat.succ k =>
      match inbox.get? k with
      | none => .panic
      | some target =>
        match setCheckedFirst target.id data.items with
        | none => .panic
        | some items' =>
          let data' := { data with items := items' }
          let cmd : Command :=
            { request_type := "item_complete"
              uuid := cmd_uuid
              temp_id := none
              args := .CompleteItemCommandArgs ⟨target.id⟩ }
          .ok (data', commands ++ [cmd], target)

/-- The command-pruning loop shared by `full_sync` (`src/main.rs` lines
313-325) and `incremental_sync` (lines 385-396): for each `(temp_id, _)`
entry of the response's `temp_id_mapping`, the command list is rebuilt
keeping only commands whose `temp_id` differs from `Some(temp_id)`. -/
def prune_commands_cli (mapping : List (String × String))
    (commands : List Command) : List Command :=
  mapping.foldl (fun cmds p => cmds.filter (fun c => !(c.temp_id == some p.1))) commands

/-- The local state transition of `incremental_sync` from `src/main.rs`
lines 340-409, with the network call and file I/O elided: `sync_data` is the
parsed store, `commands` the parsed command list, `resp` the server
response.  The code sets `sync_data.full_sync` and `sync_data.sync_token`
from the response, then one loop over `temp_id_mapping` both remaps item
ids in the store (first match only, exactly as `Model::update`) and prunes
commands whose `temp_id` is a key of the mapping.  `sync_status` is never
consulted. -/
def incremental_sync (sync_data : Response) (commands : List Command)
    (resp : Response) : Response × List Command :=
  let st := resp.temp_id_mapping.foldl
    (fun (st : List Item × List Command) p =>
      (renameOne p.1 p.2 st.1, st.2.filter (fun c => !(c.temp_id == some p.1))))
    (sync_data.items, commands)
  ({ sync_data with
      full_sync := resp.full_sync
      sync_token := resp.sync_token
      items := st.1 },
    st.2)

/-- The local state transition of `full_sync` from `src/main.rs` lines
288-338, with the network call and file I/O elided: the response itself is
stored wholesale as the new `sync.json`, and the command list is pruned by
`temp_id_mapping` keys only — `sync_status` is never consulted. -/
def full_sync (commands : List Command) (resp : Response) :
    Response × List Command :=
  (resp, prune_commands_cli resp.temp_id_mapping commands)

end Cli

/-- Projection of an `Item` onto every field other than `id`. -/
def itemFrame (i : Item) : String × String × Bool :=
  (i.project_id, i.content, i.checked)

/-! Concrete inputs used by the counterexample and code-bug theorems. -/

/-- A pending `item_complete` command whose uuid the server acknowledges. -/
def cmdOkNoTemp : Command :=
  ⟨"item_complete", "cmd-uuid-1", none, .CompleteItemCommandArgs ⟨"i9"⟩⟩

/-- A response acknowledging `cmdOkNoTemp` with status `"ok"` and an empty
temp-id mapping. -/
def respOkStatus : Response :=
  ⟨"tok", [], none, false, some [("cmd-uuid-1", "ok")], []⟩

/-- A pending `item_add` command with a temp id, never acknowledged. -/
def cmdAddTemp : Command :=
  ⟨"item_add", "cmd-uuid-2", some "temp-7", .AddItemCommandArgs ⟨"p1", "call mom"⟩⟩

/-- A response whose temp-id mapping resolves `cmdAddTemp`'s temp id but
whose `sync_status` is absent. -/
def respMapNoStatus : Response :=
  ⟨"tok", [], none, false, none, [("temp-7", "real-42")]⟩

/-- A stored sync file (the `Response`-shaped local store) with no items. -/
def storeEmpty : Response :=
  ⟨"*", [], some ⟨"First Last", "p1"⟩, false, none, []⟩

/-- C1 counterexample: model state whose queue holds both commands. -/
def modelC1 : Model :=
  ⟨"*", [], ⟨"First Last", "p1"⟩, [cmdOkNoTemp, cmdAddTemp]⟩

/-- C3 counterexample: an unset (empty) inbox project id together with an
unchecked item whose `project_id` is itself the empty string. -/
def modelC3 : Model :=
  ⟨"*", [⟨"i1", "", "orphan", false⟩], ⟨"First Last", ""⟩, []⟩

/-- C4 counterexample: two unconfirmed items and a mapping whose second
entry's real id collides with the first entry's temp id. -/
def modelC4 : Model :=
  ⟨"*", [⟨"t1", "p1", "first", false⟩, ⟨"t2", "p1", "second", false⟩],
    ⟨"First Last", "p1"⟩, []⟩

/-- The colliding response for the C4 counterexample. -/
def respC4 : Response :=
  ⟨"tok", [], none, false, none, [("t1", "A"), ("t2", "t1")]⟩

/-- C2 failing store: one unchecked inbox item, so the inbox view has
length 1 and display indices 0 and 2 are both out of range. -/
def storeC2 : Response :=
  ⟨"*", [⟨"i1", "p1", "buy milk", false⟩], some ⟨"First Last", "p1"⟩, false, none, []⟩

/-- C6 witness model: one confirmed and one unconfirmed item. -/
def modelC6 : Model :=
  ⟨"*", [⟨"i1", "p1", "buy milk", false⟩, ⟨"temp-7", "p1", "call mom", false⟩],
    ⟨"First Last", "p1"⟩, []⟩

/-- C7 witness store: one existing inbox item, user present. -/
def storeC7 : Response :=
  ⟨"*", [⟨"i1", "p1", "buy milk", false⟩], some ⟨"First Last", "p1"⟩, false, none, []⟩

/-- C10 witness model: one item and a pending command. -/
def modelC10 : Model :=
  ⟨"*", [⟨"i1", "p1", "buy milk", false⟩], ⟨"First Last", "p1"⟩, [cmdAddTemp]⟩

/-! Helper lemmas about `renameOne`, `applyMapping`, `completeInList`. -/

theorem renameOne_of_forall_ne (t r : String) (items : List Item)
    (h : ∀ i ∈ items, i.id ≠ t) : renameOne t r items = items := by
  induction items with
  | nil => rfl
  | cons i rest ih =>
    have hi : i.id ≠ t := h i (List.mem_cons_self _ _)
    simp only [renameOne, if_neg hi]
    rw [ih (fun j hj => h j (List.mem_cons_of_mem _ hj))]

theorem applyMapping_nil (items : List Item) : applyMapping [] items = items := rfl

theorem applyMapping_cons (p : String × String) (mp : List (String × String))
    (items : List Item) :
    applyMapping (p :: mp) items = applyMapping mp (renameOne p.1 p.2 items) := rfl

theorem applyMapping_append (a b : List (String × String)) (items : List Item) :
    applyMapping (a ++ b) items = applyMapping b (applyMapping a items) :=
  List.foldl_append _ _ _ _

theorem applyMapping_of_forall_ne (mp : List (String × String)) (items : List Item)
    (h : ∀ p ∈ mp, ∀ i ∈ items, i.id ≠ p.1) : applyMapping mp items = items := by
  induction mp with
  | nil => rfl
  | cons p mp ih =>
    rw [applyMapping_cons, renameOne_of_forall_ne _ _ _ (h p (List.mem_cons_self _ _))]
    exact ih (fun q hq => h q (List.mem_cons_of_mem _ hq))

theorem countP_renameOne_le (t' r' t : String) (h : r' ≠ t) (items : List Item) :
    (renameOne t' r' items).countP (fun i => i.id == t)
      ≤ items.countP (fun i => i.id == t) := by
  induction items with
  | nil => simp [renameOne]
  | cons i rest ih =>
    by_cases hid : i.id = t'
    · have hb : (({ i with id := r' } : Item).id == t) = false := by simpa using h
      simp [renameOne, if_pos hid, List.countP_cons, hb]
    · simp only [renameOne, if_neg hid, List.countP_cons]
      omega

theorem countP_renameOne_eq_zero (t r : String) (h : r ≠ t) (items : List Item)
    (hle : items.countP (fun i => i.id == t) ≤ 1) :
    (renameOne t r items).countP (fun i => i.id == t) = 0 := by
  induction items with
  | nil => simp [renameOne]
  | cons i rest ih =>
    by_cases hid : i.id = t
    · rw [renameOne, if_pos hid]
      have hrest : rest.countP (fun i => i.id == t) = 0 := by
        have := hle
        simp only [List.countP_cons, hid, beq_self_eq_true, if_pos] at this
        omega
      simp only [List.countP_cons, hrest]
      simp [show (({ i with id := r } : Item).id == t) = false by simpa using h]
    · rw [renameOne, if_neg hid]
      have hle' : rest.countP (fun i => i.id == t) ≤ 1 := by
        have := hle
        simp only [List.countP_cons] at this
        omega
      simp only [List.countP_cons, ih hle']
      simp [hid]

theorem countP_applyMapping_le (mp : List (String × String)) (t : String)
    (h : ∀ p ∈ mp, p.2 ≠ t) (items : List Item) :
    (applyMapping mp items).countP (fun i => i.id == t)
      ≤ items.countP (fun i => i.id == t) := by
  induction mp generalizing items with
  | nil => simp [applyMapping]
  | cons p mp ih =>
    rw [applyMapping_cons]
    exact le_trans (ih (fun q hq => h q (List.mem_cons_of_mem _ hq)) _)
      (countP_renameOne_le p.1 p.2 t (h p (List.mem_cons_self _ _)) items)

theorem countP_applyMapping_eq_zero (mp : List (String × String)) (items : List Item)
    (t r : String) (hmem : (t, r) ∈ mp)
    (hsep : ∀ p ∈ mp, ∀ q ∈ mp, p.2 ≠ q.1)
    (hle : items.countP (fun i => i.id == t) ≤ 1) :
    (applyMapping mp items).countP (fun i => i.id == t) = 0 := by
  obtain ⟨l1, l2, rfl⟩ := List.append_of_mem hmem
  have h1 : ∀ p ∈ l1, p.2 ≠ t := fun p hp =>
    hsep p (List.mem_append_left _ hp) (t, r) hmem
  have h2 : ∀ p ∈ l2, p.2 ≠ t := fun p hp =>
    hsep p (List.mem_append_right _ (List.mem_cons_of_mem _ hp)) (t, r) hmem
  have hrt : r ≠ t := hsep (t, r) hmem (t, r) hmem
  rw [applyMapping_append, applyMapping_cons]
  dsimp only
  have c1 : (applyMapping l1 items).countP (fun i => i.id == t) ≤ 1 :=
    le_trans (countP_applyMapping_le l1 t h1 items) hle
  have c2 := countP_renameOne_eq_zero t r hrt _ c1
  have c3 := countP_applyMapping_le l2 t h2 (renameOne t r (applyMapping l1 items))
  omega

theorem countP_le_one_of_nodup (items : List Item) (t : String)
    (h : (items.map Item.id).Nodup) :
    items.countP (fun i => i.id == t) ≤ 1 := by
  induction items with
  | nil => simp
  | cons i rest ih =>
    simp only [List.map_cons, List.nodup_cons] at h
    by_cases hit : i.id = t
    · have hzero : rest.countP (fun j => j.id == t) = 0 := by
        rw [List.countP_eq_zero]
        intro j hj
        simp only [beq_iff_eq]
        intro hjt
        apply h.1
        rw [hit, ← hjt]
        exact List.mem_map_of_mem Item.id hj
      simp [List.countP_cons, hit, hzero]
    · have := ih h.2
      simp only [List.countP_cons]
      simp only [show (i.id == t) = false by simpa using hit]
      simpa using this

theorem applyMapping_idem (mp : List (String × String)) (items : List Item)
    (hnd : (items.map Item.id).Nodup)
    (hsep : ∀ p ∈ mp, ∀ q ∈ mp, p.2 ≠ q.1) :
    applyMapping mp (applyMapping mp items) = applyMapping mp items := by
  apply applyMapping_of_forall_ne
  intro p hp i hi
  have hzero := countP_applyMapping_eq_zero mp items p.1 p.2 hp hsep
    (countP_le_one_of_nodup items p.1 hnd)
  rw [List.countP_eq_zero] at hzero
  have := hzero i hi
  simpa using this

theorem filter_self_idem {α : Type} (p : α → Bool) (l : List α) :
    (l.filter p).filter p = l.filter p :=
  List.filter_eq_self.mpr (fun _ ha => (List.mem_filter.mp ha).2)

theorem renameOne_append (t rid : String) (pre : List Item) (x : Item)
    (post : List Item) (hx : x.id = t) (hpre : ∀ i ∈ pre, i.id ≠ t) :
    renameOne t rid (pre ++ x :: post) = pre ++ { x with id := rid } :: post := by
  induction pre with
  | nil => simp [renameOne, hx]
  | cons i rest ih =>
    have hi : i.id ≠ t := hpre i (List.mem_cons_self _ _)
    simp only [List.cons_append, renameOne, if_neg hi, List.append_eq]
    rw [ih (fun j hj => hpre j (List.mem_cons_of_mem _ hj))]

theorem completeInList_of_forall_ne (iid : String) (items : List Item)
    (h : ∀ i ∈ items, i.id ≠ iid) : completeInList iid items = none := by
  induction items with
  | nil => rfl
  | cons i rest ih =>
    have hi : i.id ≠ iid := h i (List.mem_cons_self _ _)
    simp only [completeInList, if_neg hi]
    rw [ih (fun j hj => h j (List.mem_cons_of_mem _ hj))]
    rfl

theorem completeInList_append (iid : String) (pre : List Item) (x : Item)
    (post : List Item) (hx : x.id = iid) (hpre : ∀ i ∈ pre, i.id ≠ iid) :
    completeInList iid (pre ++ x :: post)
      = some (pre ++ x.mark_complete :: post, x.mark_complete) := by
  induction pre with
  | nil => simp [completeInList, hx]
  | cons i rest ih =>
    have hi : i.id ≠ iid := hpre i (List.mem_cons_self _ _)
    simp only [List.cons_append, completeInList, if_neg hi, List.append_eq]
    rw [ih (fun j hj => hpre j (List.mem_cons_of_mem _ hj))]
    rfl

theorem renameOne_map_itemFrame (t r : String) (items : List Item) :
    (renameOne t r items).map itemFrame = items.map itemFrame := by
  induction items with
  | nil => rfl
  | cons i rest ih =>
    by_cases hid : i.id = t
    · simp [renameOne, if_pos hid, itemFrame]
    · simp only [renameOne, if_neg hid, List.map_cons]
      rw [ih]

theorem applyMapping_map_itemFrame (mp : List (String × String)) (items : List Item) :
    (applyMapping mp items).map itemFrame = items.map itemFrame := by
  induction mp generalizing items with
  | nil => rfl
  | cons p mp ih =>
    rw [applyMapping_cons, ih, renameOne_map_itemFrame]

theorem applyMapping_length (mp : List (String × String)) (items : List Item) :
    (applyMapping mp items).length = items.length := by
  have h := applyMapping_map_itemFrame mp items
  have := congrArg List.length h
  simpa using this

theorem prune_commands_cli_mem (mp : List (String × String)) (cmds : List Command)
    (c : Command) :
    c ∈ Cli.prune_commands_cli mp cmds ↔ c ∈ cmds ∧ ∀ p ∈ mp, c.temp_id ≠ some p.1 := by
  induction mp generalizing cmds with
  | nil => simp [Cli.prune_commands_cli]
  | cons p mp ih =>
    have hstep : Cli.prune_commands_cli (p :: mp) cmds
        = Cli.prune_commands_cli mp (cmds.filter (fun c => !(c.temp_id == some p.1))) := rfl
    rw [hstep, ih]
    simp only [List.mem_filter, List.mem_cons]
    constructor
    · rintro ⟨⟨hc, hp⟩, hrest⟩
      refine ⟨hc, ?_⟩
      intro q hq
      rcases hq with rfl | hq
      · simpa using hp
      · exact hrest q hq
    · rintro ⟨hc, hall⟩
      refine ⟨⟨hc, ?_⟩, fun q hq => hall q (Or.inr hq)⟩
      simpa using hall p (Or.inl rfl)

/-! Claim theorems. -/

/-- C1, counterexample.  The claim requires queue pruning by
`sync_status == "ok"` on every sync path.  On the CLI incremental-sync path
(`src/main.rs` lines 375-396) the command `cmdOkNoTemp`, acknowledged with
`"ok"`, nevertheless stays queued (pruning ignores `sync_status`), and the
never-acknowledged `cmdAddTemp` is removed merely because its temp id
appears in `temp_id_mapping`. -/
theorem claim1_queue_pruning_cex :
    respOkStatus.sync_status = some [(cmdOkNoTemp.uuid, "ok")] ∧
    (Cli.incremental_sync storeEmpty [cmdOkNoTemp] respOkStatus).2 = [cmdOkNoTemp] ∧
    respMapNoStatus.sync_status = none ∧
    (Cli.incremental_sync storeEmpty [cmdAddTemp] respMapNoStatus).2 = [] := by
  decide

/-- C1, amended.  In the reconciler `Model::update`, a pending command is
removed exactly when `sync_status` maps its uuid to `"ok"`; all other
commands survive in order, unchanged (an absent `sync_status` leaves the
queue untouched).  The CLI full-sync and incremental-sync paths do not
implement this rule: they never consult `sync_status`, and instead remove
exactly the commands whose `temp_id` occurs as a key of `temp_id_mapping`. -/
theorem claim1_queue_pruning_amended (m : Model) (r : Response) :
    (∀ c, c ∈ (m.update r).commands ↔
      c ∈ m.commands ∧
        ¬ ∃ sm, r.sync_status = some sm ∧ List.lookup c.uuid sm = some "ok") ∧
    List.Sublist (m.update r).commands m.commands ∧
    (∀ mp cmds c, c ∈ Cli.prune_commands_cli mp cmds ↔
      c ∈ cmds ∧ ∀ p ∈ mp, c.temp_id ≠ some p.1) := by
  refine ⟨?_, ?_, fun mp cmds c => prune_commands_cli_mem mp cmds c⟩
  · intro c
    cases hs : r.sync_status with
    | none => simp [Model.update, hs]
    | some sm =>
      simp only [Model.update, hs, List.mem_filter]
      constructor
      · rintro ⟨hc, hp⟩
        refine ⟨hc, ?_⟩
        rintro ⟨sm', hsm', hok⟩
        cases hsm'
        simp [hok] at hp
      · rintro ⟨hc, hne⟩
        refine ⟨hc, ?_⟩
        simp only [Bool.not_eq_true', beq_eq_false_iff_ne, ne_eq]
        intro hok
        exact hne ⟨sm, rfl, hok⟩
  · cases hs : r.sync_status with
    | none => simp [Model.update, hs]
    | some sm =>
      simp only [Model.update, hs]
      exact List.filter_sublist _

/-- C1, sanity instance of the amended theorem on the counterexample
state: `Model::update` does remove the acknowledged command. -/
theorem claim1_queue_pruning_w :
    List.Sublist (modelC1.update respOkStatus).commands modelC1.commands :=
  (claim1_queue_pruning_amended modelC1 respOkStatus).2.1

/-- C2, code bug.  The spec demands that an out-of-range display index
fail with a recoverable `NotFound` error and mutate nothing.  The code
(`src/main.rs` lines 222-225, `get_inbox_items(...)?.get(number - 1).unwrap()`,
marked `FIXME: good error handling!!` in a crate with
`#![warn(clippy::unwrap_used)]`) panics instead: with a one-item inbox view,
index 2 hits `unwrap` on `None` and index 0 underflows the `usize`
subtraction.  In-range index 1 succeeds normally. -/
theorem claim2_complete_out_of_range_panics :
    Cli.get_inbox_items storeC2 = .ok [⟨"i1", "p1", "buy milk", false⟩] ∧
    Cli.complete_item storeC2 [] 2 "u-c" = .panic ∧
    Cli.complete_item storeC2 [] 0 "u-c" = .panic ∧
    Cli.complete_item storeC2 [] 1 "u-c" ≠ .panic :=
  ⟨rfl, rfl, rfl, by decide⟩

/-- C3, counterexample.  With an empty `inbox_project_id`, an unchecked
item whose `project_id` is itself the empty string does match the inbox
filter (`src/sync.rs` line 36 is plain string equality), so the inbox view
is not empty — the claim's "empty inbox id matches nothing" fails. -/
theorem claim3_empty_inbox_id_cex :
    modelC3.user.inbox_project_id = "" ∧
    modelC3.get_inbox_items = [⟨"i1", "", "orphan", false⟩] := by
  decide

/-- C3, amended.  The inbox filter is plain string equality on
`project_id`, so with an empty `inbox_project_id` the inbox view is empty
provided no item's `project_id` is itself the empty string; an unchecked
item with an empty `project_id` is included. -/
theorem claim3_empty_inbox_id_amended (m : Model)
    (h0 : m.user.inbox_project_id = "")
    (h1 : ∀ i ∈ m.items, i.project_id ≠ "") :
    m.get_inbox_items = [] := by
  rw [Model.get_inbox_items, List.filter_eq_nil_iff]
  intro i hi
  simp [h0, h1 i hi]

/-- C3, witness for the amended theorem: a model whose only item lives in
project `"p1"` and whose user has an unset inbox id lists an empty inbox. -/
theorem claim3_empty_inbox_id_w :
    (⟨"*", [⟨"i1", "p1", "buy milk", false⟩], ⟨"First Last", ""⟩, []⟩ : Model).get_inbox_items = [] :=
  claim3_empty_inbox_id_amended _ rfl (by decide)

/-- C4, counterexample.  Reconciliation is not idempotent for every model
and response: in `respC4`'s mapping (iteration order is arbitrary for the
Rust `HashMap`), the entry `("t2", "t1")` writes the real id `"t1"`, which
is also the first entry's temp id.  The first pass renames item `"t1"` to
`"A"` and item `"t2"` to `"t1"`; a second pass then renames the latter to
`"A"` as well, so applying the response twice differs from applying it
once. -/
theorem claim4_update_idempotent_cex :
    (modelC4.update respC4).update respC4 ≠ modelC4.update respC4 := by
  decide

/-- C4, amended.  Reconciliation is idempotent whenever the response is a
full sync, or (on the incremental path) the model's item ids are pairwise
distinct and no real id occurring in `temp_id_mapping` equals any temp id
key of the mapping — the situation the spec presumes, since server-assigned
ids are distinct from client temp ids.  The counterexample violates only
the latter separation. -/
theorem claim4_update_idempotent_amended (m : Model) (r : Response)
    (h : r.full_sync = true ∨
      ((m.items.map Item.id).Nodup ∧
        ∀ p ∈ r.temp_id_mapping, ∀ q ∈ r.temp_id_mapping, p.2 ≠ q.1)) :
    (m.update r).update r = m.update r := by
  rcases h with hfull | ⟨hnd, hsep⟩
  · cases hu : r.user with
    | none =>
      cases hs : r.sync_status with
      | none => simp [Model.update, hfull, hu, hs]
      | some sm => simp [Model.update, hfull, hu, hs, filter_self_idem]
    | some u =>
      cases hs : r.sync_status with
      | none => simp [Model.update, hfull, hu, hs]
      | some sm => simp [Model.update, hfull, hu, hs, filter_self_idem]
  · have hitems := applyMapping_idem r.temp_id_mapping m.items hnd hsep
    cases hfs : r.full_sync with
    | true =>
      cases hu : r.user with
      | none =>
        cases hs : r.sync_status with
        | none => simp [Model.update, hfs, hu, hs]
        | some sm => simp [Model.update, hfs, hu, hs, filter_self_idem]
      | some u =>
        cases hs : r.sync_status with
        | none => simp [Model.update, hfs, hu, hs]
        | some sm => simp [Model.update, hfs, hu, hs, filter_self_idem]
    | false =>
      cases hu : r.user with
      | none =>
        cases hs : r.sync_status with
        | none => simp [Model.update, hfs, hu, hs, hitems]
        | some sm => simp [Model.update, hfs, hu, hs, hitems, filter_self_idem]
      | some u =>
        cases hs : r.sync_status with
        | none => simp [Model.update, hfs, hu, hs, hitems]
        | some sm => simp [Model.update, hfs, hu, hs, hitems, filter_self_idem]

/-- C4, witness.  A well-separated incremental response (distinct item
ids, the real id `"real-42"` is no temp id) reconciles idempotently. -/
theorem claim4_update_idempotent_w :
    ((⟨"*", [⟨"temp-7", "p1", "call mom", false⟩], ⟨"First Last", "p1"⟩, []⟩ : Model).update
        respMapNoStatus).update respMapNoStatus
      = (⟨"*", [⟨"temp-7", "p1", "call mom", false⟩], ⟨"First Last", "p1"⟩, []⟩ : Model).update
          respMapNoStatus :=
  claim4_update_idempotent_amended _ _ (Or.inr ⟨by decide, by decide⟩)

/-- C5, confirmed.  A full-sync response replaces the model's items
wholesale with the response's items (`src/sync.rs` lines 47-49). -/
theorem claim5_full_sync_replacement (m : Model) (r : Response)
    (h : r.full_sync = true) : (m.update r).items = r.items := by
  simp [Model.update, h]

/-- C5, witness: wholesale replacement on a concrete full-sync response. -/
theorem claim5_full_sync_replacement_w :
    ((modelC4.update
        ⟨"tok1", [⟨"i1", "p1", "buy milk", false⟩], none, true, none, []⟩) : Model).items
      = [⟨"i1", "p1", "buy milk", false⟩] :=
  claim5_full_sync_replacement modelC4 _ rfl

/-- C6, confirmed.  Processing one `(temp_id, real_id)` entry of an
incremental response (stated for a response whose mapping holds exactly
that entry): if no item's id equals `temp_id` the entry has no effect; if
the (first) item with that id exists, only its `id` field becomes
`real_id` — `project_id`, `content`, `checked`, all other items, and their
order are untouched. -/
theorem claim6_temp_id_remap (m : Model) (r : Response) (t rid : String)
    (hf : r.full_sync = false) (hm : r.temp_id_mapping = [(t, rid)]) :
    ((∀ i ∈ m.items, i.id ≠ t) → (m.update r).items = m.items) ∧
    (∀ pre x post, m.items = pre ++ x :: post → x.id = t →
      (∀ i ∈ pre, i.id ≠ t) →
      (m.update r).items = pre ++ { x with id := rid } :: post) := by
  have hitems : (m.update r).items = renameOne t rid m.items := by
    simp [Model.update, hf, hm, applyMapping]
  constructor
  · intro h
    rw [hitems, renameOne_of_forall_ne t rid m.items h]
  · intro pre x post hsplit hx hpre
    rw [hitems, hsplit, renameOne_append t rid pre x post hx hpre]

/-- C6, witness: the unconfirmed item `"temp-7"` is remapped to
`"real-42"` with its other fields intact, and `"i1"` is untouched. -/
theorem claim6_temp_id_remap_w :
    (modelC6.update respMapNoStatus).items
      = [⟨"i1", "p1", "buy milk", false⟩, ⟨"real-42", "p1", "call mom", false⟩] :=
  (claim6_temp_id_remap modelC6 respMapNoStatus "temp-7" "real-42" rfl rfl).2
    [⟨"i1", "p1", "buy milk", false⟩] ⟨"temp-7", "p1", "call mom", false⟩ [] rfl rfl
    (by decide)

/-- C7, confirmed.  `add_item` (before any sync) appends an unchecked item
carrying the user's inbox project id and the given text, and the inbox
listing of the resulting store succeeds and contains that item. -/
theorem claim7_optimistic_visibility (data : Response) (cmds : List Command)
    (txt item_id cmd_uuid : String) (u : User) (hu : data.user = some u)
    (d' : Response) (c' : List Command)
    (hadd : Cli.add_item data cmds txt item_id cmd_uuid = .ok (d', c')) :
    Cli.get_inbox_items d'
      = .ok (d'.items.filter (fun i => i.project_id == u.inbox_project_id && !i.checked)) ∧
    (⟨item_id, u.inbox_project_id, txt, false⟩ : Item)
      ∈ d'.items.filter (fun i => i.project_id == u.inbox_project_id && !i.checked) := by
  simp only [Cli.add_item, hu] at hadd
  injection hadd with h1
  injection h1 with h2 h3
  subst h2
  constructor
  · simp [Cli.get_inbox_items, hu]
  · apply List.mem_filter.mpr
    refine ⟨List.mem_append_right _ (List.mem_singleton_self _), ?_⟩
    simp

/-- C7, witness: after adding `"call mom"` the new unchecked item is in
the inbox filter of the updated store. -/
theorem claim7_optimistic_visibility_w :
    (⟨"temp-7", "p1", "call mom", false⟩ : Item)
      ∈ (⟨"*", [⟨"i1", "p1", "buy milk", false⟩, ⟨"temp-7", "p1", "call mom", false⟩],
            some ⟨"First Last", "p1"⟩, false, none, []⟩ : Response).items.filter
          (fun i => i.project_id == (⟨"First Last", "p1"⟩ : User).inbox_project_id && !i.checked) :=
  (claim7_optimistic_visibility storeC7 [] "call mom" "temp-7" "cu" ⟨"First Last", "p1"⟩ rfl
    ⟨"*", [⟨"i1", "p1", "buy milk", false⟩, ⟨"temp-7", "p1", "call mom", false⟩],
      some ⟨"First Last", "p1"⟩, false, none, []⟩
    [⟨"item_add", "cu", some "temp-7", .AddItemCommandArgs ⟨"p1", "call mom"⟩⟩] rfl).2

/-- C8, confirmed.  Reconciliation advances `sync_token` unconditionally
and replaces the user exactly when the response carries one
(`src/sync.rs` lines 41-45). -/
theorem claim8_token_and_user (m : Model) (r : Response) :
    (m.update r).sync_token = r.sync_token ∧
    (m.update r).user = r.user.getD m.user := by
  cases hu : r.user <;> simp [Model.update, hu]

/-- C8, instance at a concrete model and response. -/
theorem claim8_token_and_user_w :
    (modelC4.update respC4).sync_token = respC4.sync_token :=
  (claim8_token_and_user modelC4 respC4).1

/-- C9, confirmed.  On the incremental path reconciliation preserves the
number of items and every field of every item except a remapped `id`
(positionally), and the result does not depend on the response's `items`
list at all. -/
theorem claim9_incremental_frame (m : Model) (r : Response)
    (h : r.full_sync = false) :
    (m.update r).items.length = m.items.length ∧
    (m.update r).items.map itemFrame = m.items.map itemFrame ∧
    (∀ items', m.update { r with items := items' } = m.update r) := by
  refine ⟨?_, ?_, ?_⟩
  · simp [Model.update, h, applyMapping_length]
  · simp [Model.update, h, applyMapping_map_itemFrame]
  · intro items'
    simp [Model.update, h]

/-- C9, instance at a concrete incremental response. -/
theorem claim9_incremental_frame_w :
    (modelC4.update respC4).items.length = modelC4.items.length :=
  (claim9_incremental_frame modelC4 respC4 rfl).1

/-- C10, confirmed.  `Model::complete_item` is atomic: when no item has
the given id it returns the error (having mutated nothing — the embedding
returns no model on the error path because the Rust `&mut self` method
performs no write before the failing `find`); when the (first) item with
the given id exists, only its `checked` flag becomes `true`, every other
field, every other item, the user, the token and the command queue are
untouched. -/
theorem claim10_complete_item_atomic (m : Model) (iid : String) :
    ((∀ i ∈ m.items, i.id ≠ iid) →
      m.complete_item iid = .error "Could not find item to complete") ∧
    (∀ pre x post, m.items = pre ++ x :: post → x.id = iid →
      (∀ i ∈ pre, i.id ≠ iid) →
      m.complete_item iid
        = .ok ({ m with items := pre ++ { x with checked := true } :: post },
            { x with checked := true })) := by
  constructor
  · intro h
    simp only [Model.complete_item]
    rw [completeInList_of_forall_ne iid m.items h]
  · intro pre x post hsplit hx hpre
    simp only [Model.complete_item]
    rw [hsplit, completeInList_append iid pre x post hx hpre]
    rfl

/-- C10, witness: an unknown id errors; a known id checks exactly that
item and keeps the command queue. -/
theorem claim10_complete_item_atomic_w :
    modelC10.complete_item "nope" = .error "Could not find item to complete" ∧
    modelC10.complete_item "i1"
      = .ok (⟨"*", [⟨"i1", "p1", "buy milk", true⟩], ⟨"First Last", "p1"⟩, [cmdAddTemp]⟩,
          ⟨"i1", "p1", "buy milk", true⟩) :=
  ⟨(claim10_complete_item_atomic modelC10 "nope").1 (by decide),
   (claim10_complete_item_atomic modelC10 "i1").2 [] ⟨"i1", "p1", "buy milk", false⟩ [] rfl rfl
     (by decide)⟩
